import Mathlib

/-!
# GPU-PCIe-Test (`src/main.cpp`): embedding and verified properties

The program is a single-threaded Direct3D 12 benchmark. The embedding keeps

* the host state that the procedures thread through their calls: the `UINT64`
  fence counter (`fenceValue`, passed by reference in the source) and the
  sequence of API calls and clock reads the host has issued so far;
* the values the host reads back from the outside world as explicit inputs
  (observations): the result of `GetCompletedValue`, the two resolved
  timestamps, the timestamp frequency, and the clock reads;
* the sample series and the statistical reduction.

Conventions.

* `UINT64` values are natural numbers reduced modulo `2 ^ 64`; `int` loop bounds
  are integers, a loop `for (int i = 0; i < n; i++)` runs `n.toNat` times.
* Samples (`double`) are exact rationals. The value of a bandwidth sample whose
  duration is zero is not finite in C++; the rational value the embedding gives
  it is not used by any theorem.
* The index expression `size_t(latencies.size() * 0.99)` is embedded bit-exactly:
  conversion to `double`, multiplication by the `double` constant, rounding to
  nearest-even on a 53 bit significand, truncation.
* Dereferencing an end iterator, `front()` of an empty vector and indexing
  outside the vector are undefined behaviour in C++; the embedding is total and
  returns `none` there.
* The trace holds the calls of the measurement loops. The set-up calls (adapter,
  device, queue, allocator, list, fence, event, buffers, query heap,
  `GetTimestampFrequency`) and console output (dividers, the progress percentage,
  the formatted results) are not part of the embedding.
* In C++ a run ends at the first procedure that fails. `mainWith` goes on with the
  remaining procedures, so the calls of such a run are an initial segment of the
  trace; the properties of the trace are proved for every initial segment.
-/

namespace GpuPcieTest

/-! ## Double-precision arithmetic of the percentile index -/

/-- Number of low bits that must be dropped for `P` to fit a 53 bit significand
(`fuel` bounds the search; 64 is enough for every product below `2 ^ 117`). -/
def normShift : Nat → Nat → Nat
  | 0, _ => 0
  | fuel + 1, P => if P < 2 ^ 53 then 0 else normShift fuel (P / 2) + 1

/-- Round a natural number to 53 significant bits, to nearest, ties to even. The
result is the integer value of the rounded number. -/
def roundSig (P : Nat) : Nat :=
  let s := normShift 64 P
  let q := P / 2 ^ s
  let r := P % 2 ^ s
  let q' := if 2 ^ s < 2 * r ∨ (2 * r = 2 ^ s ∧ q % 2 = 1) then q + 1 else q
  q' * 2 ^ s

/-- The `double` literal `0.99` is `dbl_0_99 / 2 ^ 53`. -/
def dbl_0_99 : Nat := 8917127262193582

/-- The `double` literal `0.999` is `dbl_0_999 / 2 ^ 53`. -/
def dbl_0_999 : Nat := 8998192055486251

/-- The expression `size_t(count * c)` for a `size_t` count and a `double` constant
`c = M / 2 ^ 53` with `c < 1`: convert `count` to `double`, multiply (one rounding),
truncate toward zero. -/
def truncMul (count M : Nat) : Nat :=
  roundSig (roundSig count * M) / 2 ^ 53

/-- The index `size_t(latencies.size() * 0.99)`. -/
def index99 (count : Nat) : Nat := truncMul count dbl_0_99

/-- The index `size_t(latencies.size() * 0.999)`. -/
def index999 (count : Nat) : Nat := truncMul count dbl_0_999

/-- Largest value of the C++ type `int`. -/
def INT_MAX : Nat := 2147483647

/-! ## Statistical reduction -/

/-- The call `std::accumulate(first, last, 0.0)`. -/
def accumulate (xs : List ℚ) : ℚ :=
  xs.foldl (fun acc x => acc + x) 0

/-- The expression `*std::min_element(first, last)`: the first smallest element;
`none` on an empty range, where the returned iterator is `last`. -/
def min_element : List ℚ → Option ℚ
  | [] => none
  | x :: xs => some (xs.foldl (fun smallest y => if y < smallest then y else smallest) x)

/-- The expression `*std::max_element(first, last)`: the first largest element;
`none` on an empty range. -/
def max_element : List ℚ → Option ℚ
  | [] => none
  | x :: xs => some (xs.foldl (fun largest y => if largest < y then y else largest) x)

/-- The call `std::sort(first, last)` on samples: the ascending rearrangement. -/
def sort (xs : List ℚ) : List ℚ :=
  xs.insertionSort (fun a b => a ≤ b)

/-- The three numbers printed by `RunBandwidthTest`. -/
structure BandwidthReport where
  min : ℚ
  avg : ℚ
  max : ℚ
  deriving DecidableEq

/-- The four numbers printed by the two latency procedures. -/
structure LatencyReport where
  min : ℚ
  avg : ℚ
  worst99 : ℚ
  worst999 : ℚ
  deriving DecidableEq

/-- Lines 106-108: the results block of `RunBandwidthTest`. -/
def bandwidthResults (bandwidths : List ℚ) : Option BandwidthReport :=
  match min_element bandwidths, max_element bandwidths with
  | some mn, some mx =>
    some { min := mn, avg := accumulate bandwidths / (bandwidths.length : ℚ), max := mx }
  | _, _ => none

/-- Lines 154-162 and, verbatim, 202-210: sort, average and results block of
`RunLatencyTest` and `RunCommandLatencyTest`. -/
def latencyResults (samples : List ℚ) : Option LatencyReport :=
  let latencies := sort samples
  let avg := accumulate latencies / (latencies.length : ℚ)
  match latencies.head?, latencies[index99 latencies.length]?,
      latencies[index999 latencies.length]? with
  | some front, some w99, some w999 =>
    some { min := front, avg := avg, worst99 := w99, worst999 := w999 }
  | _, _, _ => none

/-- The spec's `percentile(S, p)` (sections 4.5 and 8), following its words: the
element of the ascending series at index `floor(p × count)`, nearest rank, no
interpolation; `none` when that index is outside the series. -/
def percentile (S : List ℚ) (p : ℚ) : Option ℚ :=
  (sort S)[⌊p * (S.length : ℚ)⌋₊]?

/-! ## Host operations and host state -/

/-- The calls the host makes inside the measurement loops, in program order. -/
inductive Op where
  | allocatorReset
  | listReset
  | endQuery (index : Nat)
  | copyResource
  | resolveQueryData
  | close
  | executeCommandLists
  | signal (value : Nat)
  | getCompletedValue (result : Nat)
  | setEventOnCompletion (value : Nat)
  | waitForSingleObject
  | map
  | unmap
  | now (ticks : Int)
  deriving DecidableEq, Repr

/-- Host state threaded through the procedures. -/
structure Host where
  fenceValue : Nat
  trace : List Op
  deriving DecidableEq

/-- Append issued calls to the trace. -/
def Host.emit (h : Host) (ops : List Op) : Host :=
  { h with trace := h.trace ++ ops }

/-- The calls issued by one execution of `WaitForFence` when the counter is
`fenceValue` and `GetCompletedValue` returns `completed`. -/
def fenceOps (fenceValue completed : Nat) : List Op :=
  [Op.signal fenceValue, Op.getCompletedValue completed] ++
    (if completed < fenceValue then
      [Op.setEventOnCompletion fenceValue, Op.waitForSingleObject]
    else [])

/-- Lines 23-30. `completed` is the value `fence->GetCompletedValue()` returns. -/
def WaitForFence (completed : Nat) (h : Host) : Host :=
  { fenceValue := (h.fenceValue + 1) % 2 ^ 64
    trace := h.trace ++ fenceOps h.fenceValue completed }

/-! ## RunBandwidthTest -/

/-- What the host reads back during one batch of `RunBandwidthTest`. -/
structure BandwidthObs where
  completed : Nat
  ts0 : Nat
  ts1 : Nat

/-- Lines 93-97: the value pushed for a batch. `ts1 - ts0` is a `UINT64`
subtraction. -/
def bandwidthSample (bufferSize : Nat) (copiesPerBatch : Int) (timestampFreq : Nat)
    (ts0 ts1 : Nat) : ℚ :=
  let ticks : Nat := (ts1 % 2 ^ 64 + 2 ^ 64 - ts0 % 2 ^ 64) % 2 ^ 64
  let seconds : ℚ := (ticks : ℚ) / (timestampFreq : ℚ)
  let bytes : ℚ := (bufferSize : ℚ) * (copiesPerBatch : ℚ)
  (bytes / (1024 * 1024 * 1024)) / seconds

/-- Lines 75-87: the calls of one batch up to and including the submission. -/
def bandwidthRecord (copiesPerBatch : Int) : List Op :=
  [Op.allocatorReset, Op.listReset, Op.endQuery 0] ++
    List.replicate copiesPerBatch.toNat Op.copyResource ++
    [Op.endQuery 1, Op.resolveQueryData, Op.close, Op.executeCommandLists]

/-- Lines 75-97: one iteration of the batch loop. -/
def bandwidthBatch (bufferSize : Nat) (copiesPerBatch : Int) (timestampFreq : Nat)
    (o : BandwidthObs) (st : Host × List ℚ) : Host × List ℚ :=
  let h1 := st.1.emit (bandwidthRecord copiesPerBatch)
  let h2 := WaitForFence o.completed h1
  let h3 := h2.emit [Op.map, Op.unmap]
  (h3, st.2 ++ [bandwidthSample bufferSize copiesPerBatch timestampFreq o.ts0 o.ts1])

/-- Lines 71-101: the batch loop; returns the host state and `bandwidths`. -/
def bandwidthLoop (bufferSize : Nat) (copiesPerBatch batches : Int) (timestampFreq : Nat)
    (obs : Nat → BandwidthObs) (h : Host) : Host × List ℚ :=
  (List.range batches.toNat).foldl
    (fun st i => bandwidthBatch bufferSize copiesPerBatch timestampFreq (obs i) st) (h, [])

/-- Lines 48-110. -/
def RunBandwidthTest (bufferSize : Nat) (copiesPerBatch batches : Int) (timestampFreq : Nat)
    (obs : Nat → BandwidthObs) (h : Host) : Host × Option BandwidthReport :=
  let r := bandwidthLoop bufferSize copiesPerBatch batches timestampFreq obs h
  (r.1, bandwidthResults r.2)

/-! ## RunLatencyTest and RunCommandLatencyTest -/

/-- What the host reads during one iteration of a latency procedure: the fence
value and the two clock reads (in clock ticks). -/
structure LatencyObs where
  completed : Nat
  start : Int
  stop : Int

/-- The expression `std::chrono::duration<double, std::micro>(end - start).count()`;
`period` is the length of one clock tick in microseconds. -/
def latencySample (period : ℚ) (start stop : Int) : ℚ :=
  ((stop - start : Int) : ℚ) * period

/-- Lines 135-147: one iteration of the loop of `RunLatencyTest`. -/
def latencyIteration (period : ℚ) (o : LatencyObs) (st : Host × List ℚ) : Host × List ℚ :=
  let h1 := st.1.emit [Op.allocatorReset, Op.listReset, Op.now o.start, Op.copyResource,
    Op.close, Op.executeCommandLists]
  let h2 := WaitForFence o.completed h1
  let h3 := h2.emit [Op.now o.stop]
  (h3, st.2 ++ [latencySample period o.start o.stop])

/-- Lines 131-151. -/
def latencyLoop (period : ℚ) (iterations : Int) (obs : Nat → LatencyObs) (h : Host) :
    Host × List ℚ :=
  (List.range iterations.toNat).foldl (fun st i => latencyIteration period (obs i) st) (h, [])

/-- Lines 115-164. Line 131, `latencies.reserve(iterations)`, converts a negative
`iterations` to a `size_t` above `max_size()` and throws `std::length_error`: no
loop, no report. -/
def RunLatencyTest (period : ℚ) (iterations : Int) (obs : Nat → LatencyObs) (h : Host) :
    Host × Option LatencyReport :=
  if iterations < 0 then (h, none)
  else
    let r := latencyLoop period iterations obs h
    (r.1, latencyResults r.2)

/-- Lines 185-195: one iteration of the loop of `RunCommandLatencyTest`. -/
def commandLatencyIteration (period : ℚ) (o : LatencyObs) (st : Host × List ℚ) :
    Host × List ℚ :=
  let h1 := st.1.emit [Op.allocatorReset, Op.listReset, Op.close, Op.now o.start,
    Op.executeCommandLists]
  let h2 := WaitForFence o.completed h1
  let h3 := h2.emit [Op.now o.stop]
  (h3, st.2 ++ [latencySample period o.start o.stop])

/-- Lines 181-199. -/
def commandLatencyLoop (period : ℚ) (iterations : Int) (obs : Nat → LatencyObs) (h : Host) :
    Host × List ℚ :=
  (List.range iterations.toNat).foldl
    (fun st i => commandLatencyIteration period (obs i) st) (h, [])

/-- Lines 169-212. Line 181 is the same `reserve` as in `RunLatencyTest`. -/
def RunCommandLatencyTest (period : ℚ) (iterations : Int) (obs : Nat → LatencyObs)
    (h : Host) : Host × Option LatencyReport :=
  if iterations < 0 then (h, none)
  else
    let r := commandLatencyLoop period iterations obs h
    (r.1, latencyResults r.2)

/-! ## main -/

/-- Everything a run of `main` reads from the device and the clock. -/
structure RunObs where
  period : ℚ
  freq1 : Nat
  test1 : Nat → BandwidthObs
  freq2 : Nat
  test2 : Nat → BandwidthObs
  test3 : Nat → LatencyObs
  test4 : Nat → LatencyObs
  test5 : Nat → LatencyObs

/-- The five reports of a run. -/
structure RunReports where
  test1 : Option BandwidthReport
  test2 : Option BandwidthReport
  test3 : Option LatencyReport
  test4 : Option LatencyReport
  test5 : Option LatencyReport

/-- Initial value passed to `CreateFence` (line 241). -/
def fenceInitialValue : Nat := 0

/-- Host state before the first procedure (line 242: `UINT64 fenceValue = 1`). -/
def initialHost : Host := { fenceValue := 1, trace := [] }

/-- Lines 241-262 with the `constexpr` values of lines 218-223 as parameters. A
report is `none` where the procedure fails. -/
def mainWith (LargeSize : Nat) (CommandIters TransferIters CopiesPerBatch BandwidthBatches : Int)
    (env : RunObs) : Host × RunReports :=
  let r1 := RunBandwidthTest LargeSize CopiesPerBatch BandwidthBatches env.freq1 env.test1
    initialHost
  let r2 := RunBandwidthTest LargeSize CopiesPerBatch BandwidthBatches env.freq2 env.test2 r1.1
  let r3 := RunCommandLatencyTest env.period CommandIters env.test3 r2.1
  let r4 := RunLatencyTest env.period TransferIters env.test4 r3.1
  let r5 := RunLatencyTest env.period TransferIters env.test5 r4.1
  (r5.1, { test1 := r1.2, test2 := r2.2, test3 := r3.2, test4 := r4.2, test5 := r5.2 })

/-- Lines 217-267. -/
def main (env : RunObs) : Host × RunReports :=
  mainWith (256 * 1024 * 1024) 100000 10000 8 32 env

/-! ## Reading a trace -/

/-- The values passed to `queue->Signal`, in order. -/
def signals : List Op → List Nat
  | [] => []
  | Op.signal v :: ops => v :: signals ops
  | _ :: ops => signals ops

/-- What can be inferred about the device from the calls issued so far. -/
structure Sync where
  /-- Command lists submitted whose completion the host has not observed. -/
  inFlight : Nat
  /-- Largest value signaled so far (the fence starts at `fenceInitialValue`). -/
  lastSignal : Nat
  /-- A `Signal` has been queued behind every submitted command list. -/
  signaled : Bool
  /-- Value the event is armed for. -/
  armed : Option Nat
  /-- The list being recorded contains `ResolveQueryData`. -/
  resolveRecorded : Bool
  /-- A submitted, not yet retired list contains `ResolveQueryData`. -/
  resolveInFlight : Bool
  /-- The readback buffer holds timestamps resolved by a retired list. -/
  resolved : Bool
  deriving DecidableEq

/-- State before the first call: nothing submitted, fence at its initial value. -/
def Sync.init : Sync :=
  { inFlight := 0, lastSignal := fenceInitialValue, signaled := false, armed := none,
    resolveRecorded := false, resolveInFlight := false, resolved := false }

/-- The host has observed the fence at the last signaled value: everything
submitted before that signal has completed. -/
def Sync.retire (s : Sync) : Sync :=
  { s with inFlight := 0, resolveInFlight := false,
           resolved := s.resolved || s.resolveInFlight }

/-- One call. `none` is a violation of the synchronisation discipline: a reset or a
submission while a batch is outstanding, a signal that is not above every earlier
one, or a read of the timestamp readback that no retired batch has resolved. -/
def Sync.step (s : Sync) : Op → Option Sync
  | Op.allocatorReset => if s.inFlight = 0 then some s else none
  | Op.listReset => if s.inFlight = 0 then some { s with resolveRecorded := false } else none
  | Op.resolveQueryData => some { s with resolveRecorded := true }
  | Op.executeCommandLists =>
    if s.inFlight = 0 then
      some { s with inFlight := 1, signaled := false, resolveInFlight := s.resolveRecorded,
                    resolved := if s.resolveRecorded then false else s.resolved }
    else none
  | Op.signal v =>
    if s.lastSignal < v then some { s with lastSignal := v, signaled := true } else none
  | Op.getCompletedValue c =>
    if s.signaled ∧ s.lastSignal ≤ c then some s.retire else some s
  | Op.setEventOnCompletion v => some { s with armed := some v }
  | Op.waitForSingleObject =>
    if s.signaled ∧ s.armed = some s.lastSignal then some { s.retire with armed := none }
    else some { s with armed := none }
  | Op.map => if s.inFlight = 0 ∧ s.resolved then some s else none
  | _ => some s

/-- Run the discipline check over a sequence of calls. -/
def Sync.run : Sync → List Op → Option Sync
  | s, [] => some s
  | s, op :: ops =>
    match s.step op with
    | some s' => Sync.run s' ops
    | none => none

/-- A concrete set of observations: clock ticks of one nanosecond, a timestamp
frequency of 1000 ticks per second, every batch one second long, the fence not yet
complete when the host first looks, every latency iteration 5000 ticks long. -/
def exampleObs : RunObs :=
  { period := 1 / 1000
    freq1 := 1000
    test1 := fun _ => { completed := 0, ts0 := 500, ts1 := 1500 }
    freq2 := 1000
    test2 := fun _ => { completed := 0, ts0 := 500, ts1 := 1500 }
    test3 := fun _ => { completed := 0, start := 100, stop := 5100 }
    test4 := fun _ => { completed := 0, start := 100, stop := 5100 }
    test5 := fun _ => { completed := 0, start := 100, stop := 5100 } }

/-- The calls issued so far obey the discipline, no submitted command list is
outstanding, and the counter is above every value signaled so far. -/
def Host.Synchronised (h : Host) : Prop :=
  ∃ s, Sync.run Sync.init h.trace = some s ∧ s.inFlight = 0 ∧ s.lastSignal < h.fenceValue

/-! ## The index expression computes the integer floor -/

theorem normShift_spec (fuel : Nat) : ∀ P : Nat, P < 2 ^ (53 + fuel) →
    normShift fuel P ≤ fuel ∧ P < 2 ^ (53 + normShift fuel P) ∧
      (normShift fuel P = 0 ∨ 2 ^ (52 + normShift fuel P) ≤ P) := by
  induction fuel with
  | zero => intro P h; simpa [normShift] using h
  | succ k ih =>
    intro P h
    unfold normShift
    by_cases hP : P < 2 ^ 53
    · rw [if_pos hP]; exact ⟨Nat.zero_le _, hP, Or.inl rfl⟩
    · rw [if_neg hP]
      have h2 : P / 2 < 2 ^ (53 + k) := by
        rw [Nat.div_lt_iff_lt_mul (by norm_num)]
        calc P < 2 ^ (53 + (k + 1)) := h
          _ = 2 ^ (53 + k) * 2 := by ring
      obtain ⟨h1, h3, h4⟩ := ih (P / 2) h2
      refine ⟨by omega, ?_, Or.inr ?_⟩
      · have : 2 ^ (53 + (normShift k (P / 2) + 1)) = 2 ^ (53 + normShift k (P / 2)) * 2 := by
          ring
        rw [this]; omega
      · rcases h4 with h4 | h4
        · rw [h4]; simpa using Nat.le_of_not_lt hP
        · have : 2 ^ (52 + (normShift k (P / 2) + 1)) = 2 ^ (52 + normShift k (P / 2)) * 2 := by
            ring
          rw [this]; omega

/-- Counts below `2 ^ 53` convert to `double` exactly. -/
theorem roundSig_small (n : Nat) (h : n < 2 ^ 53) : roundSig n = n := by
  have : normShift 64 n = 0 := by unfold normShift; rw [if_pos h]
  simp [roundSig, this, Nat.mod_one]

theorem roundSig_cases (P : Nat) (hP : P < 2 ^ 84) :
    ∃ s, s ≤ 31 ∧ (s = 0 ∨ 2 ^ (52 + s) ≤ P) ∧ P < 2 ^ (53 + s) ∧
      roundSig P =
        (if 2 ^ s < 2 * (P % 2 ^ s) ∨ (2 * (P % 2 ^ s) = 2 ^ s ∧ (P / 2 ^ s) % 2 = 1)
          then P / 2 ^ s + 1 else P / 2 ^ s) * 2 ^ s := by
  obtain ⟨_, h2, h3⟩ := normShift_spec 64 P (lt_trans hP (by norm_num))
  refine ⟨normShift 64 P, ?_, h3, h2, rfl⟩
  by_contra hs
  rcases h3 with h3 | h3
  · omega
  · have : 2 ^ 84 ≤ 2 ^ (52 + normShift 64 P) := Nat.pow_le_pow_right (by norm_num) (by omega)
    omega

/-- The constants are the doubles nearest to `0.99` and `0.999`: normalised 53 bit
significands within half a unit in the last place of the decimal value. -/
theorem dbl_constants_nearest :
    2 ^ 52 ≤ dbl_0_99 ∧ dbl_0_99 < 2 ^ 53 ∧ 100 * dbl_0_99 + 8 = 99 * 2 ^ 53 ∧
    2 ^ 52 ≤ dbl_0_999 ∧ dbl_0_999 < 2 ^ 53 ∧ 1000 * dbl_0_999 + 8 = 999 * 2 ^ 53 := by
  decide

set_option maxHeartbeats 4000000 in
/-- For every count an `int` can hold, `size_t(count * 0.99)` is `⌊99 * count / 100⌋`. -/
theorem index99_eq (n : Nat) (hn : n ≤ INT_MAX) : index99 n = 99 * n / 100 := by
  unfold INT_MAX at hn
  unfold index99 truncMul
  rw [roundSig_small n (by omega)]
  have hP : n * dbl_0_99 < 2 ^ 84 := by unfold dbl_0_99; omega
  obtain ⟨s, hs, h1, h2, h3⟩ := roundSig_cases (n * dbl_0_99) hP
  rw [h3]
  unfold dbl_0_99 at *
  interval_cases s <;> simp only [Nat.reducePow, Nat.reduceAdd] at * <;> split_ifs <;> omega

set_option maxHeartbeats 4000000 in
/-- For every count an `int` can hold, `size_t(count * 0.999)` is `⌊999 * count / 1000⌋`. -/
theorem index999_eq (n : Nat) (hn : n ≤ INT_MAX) : index999 n = 999 * n / 1000 := by
  unfold INT_MAX at hn
  unfold index999 truncMul
  rw [roundSig_small n (by omega)]
  have hP : n * dbl_0_999 < 2 ^ 84 := by unfold dbl_0_999; omega
  obtain ⟨s, hs, h1, h2, h3⟩ := roundSig_cases (n * dbl_0_999) hP
  rw [h3]
  unfold dbl_0_999 at *
  interval_cases s <;> simp only [Nat.reducePow, Nat.reduceAdd] at * <;> split_ifs <;> omega

/-- The index expression at counts where the exact product is an integer or just
below one. -/
theorem index_examples :
    index99 1 = 0 ∧ index99 100 = 99 ∧ index99 101 = 99 ∧ index99 10000 = 9900 ∧
    index999 999 = 998 ∧ index999 1000 = 999 ∧ index999 100000 = 99900 ∧
    index99 2147483647 = 2126008810 ∧ index999 2147483647 = 2145336163 := by
  decide

theorem floor_ratio (a b n : Nat) : ⌊((a : ℚ) / (b : ℚ)) * (n : ℚ)⌋₊ = a * n / b := by
  rw [div_mul_eq_mul_div, ← Nat.cast_mul, Nat.floor_div_eq_div]

/-! ## Statistics -/

theorem accumulate_eq_sum (xs : List ℚ) : accumulate xs = xs.sum := by
  unfold accumulate
  have : ∀ (l : List ℚ) (a : ℚ), l.foldl (fun acc x => acc + x) a = a + l.sum := by
    intro l
    induction l with
    | nil => intro a; simp
    | cons x l ih => intro a; simp [ih, add_assoc]
  simpa using this xs 0

theorem foldl_min_spec (xs : List ℚ) : ∀ x : ℚ,
    (xs.foldl (fun smallest y => if y < smallest then y else smallest) x ∈ x :: xs) ∧
    ∀ y ∈ x :: xs, xs.foldl (fun smallest y => if y < smallest then y else smallest) x ≤ y := by
  induction xs with
  | nil => intro x; simp
  | cons z zs ih =>
    intro x
    simp only [List.foldl_cons]
    obtain ⟨hm, hle⟩ := ih (if z < x then z else x)
    refine ⟨?_, ?_⟩
    · rcases List.mem_cons.mp hm with h | h
      · rw [h]; split_ifs <;> simp
      · simp [h]
    · intro y hy
      have h0 := hle (if z < x then z else x) (List.mem_cons_self _ _)
      rcases List.mem_cons.mp hy with h | h
      · subst h
        refine le_trans h0 ?_
        split_ifs with hzx
        · exact le_of_lt hzx
        · exact le_refl _
      · rcases List.mem_cons.mp h with h | h
        · subst h
          refine le_trans h0 ?_
          split_ifs with hzx
          · exact le_refl _
          · exact not_lt.mp hzx
        · exact hle y (List.mem_cons_of_mem _ h)

theorem foldl_max_spec (xs : List ℚ) : ∀ x : ℚ,
    (xs.foldl (fun largest y => if largest < y then y else largest) x ∈ x :: xs) ∧
    ∀ y ∈ x :: xs, y ≤ xs.foldl (fun largest y => if largest < y then y else largest) x := by
  induction xs with
  | nil => intro x; simp
  | cons z zs ih =>
    intro x
    simp only [List.foldl_cons]
    obtain ⟨hm, hle⟩ := ih (if x < z then z else x)
    refine ⟨?_, ?_⟩
    · rcases List.mem_cons.mp hm with h | h
      · rw [h]; split_ifs <;> simp
      · simp [h]
    · intro y hy
      have h0 := hle (if x < z then z else x) (List.mem_cons_self _ _)
      rcases List.mem_cons.mp hy with h | h
      · subst h
        refine le_trans ?_ h0
        split_ifs with hzx
        · exact le_of_lt hzx
        · exact le_refl _
      · rcases List.mem_cons.mp h with h | h
        · subst h
          refine le_trans ?_ h0
          split_ifs with hzx
          · exact le_refl _
          · exact not_lt.mp hzx
        · exact hle y (List.mem_cons_of_mem _ h)

theorem min_element_spec (S : List ℚ) (hne : S ≠ []) :
    ∃ m, min_element S = some m ∧ m ∈ S ∧ ∀ y ∈ S, m ≤ y := by
  cases S with
  | nil => exact absurd rfl hne
  | cons x xs => exact ⟨_, rfl, (foldl_min_spec xs x).1, (foldl_min_spec xs x).2⟩

theorem max_element_spec (S : List ℚ) (hne : S ≠ []) :
    ∃ m, max_element S = some m ∧ m ∈ S ∧ ∀ y ∈ S, y ≤ m := by
  cases S with
  | nil => exact absurd rfl hne
  | cons x xs => exact ⟨_, rfl, (foldl_max_spec xs x).1, (foldl_max_spec xs x).2⟩

theorem sort_sorted (S : List ℚ) : List.Sorted (fun a b => a ≤ b) (sort S) :=
  List.sorted_insertionSort _ S

theorem sort_perm (S : List ℚ) : (sort S).Perm S :=
  List.perm_insertionSort _ S

theorem sort_length (S : List ℚ) : (sort S).length = S.length :=
  List.length_insertionSort _ S

/-- Every ascending rearrangement of the series is `sort S`: the result of
`std::sort` does not depend on the sorting algorithm. -/
theorem sort_unique (S l : List ℚ) (hp : l.Perm S)
    (hs : List.Sorted (fun a b => a ≤ b) l) : l = sort S :=
  List.eq_of_perm_of_sorted (hp.trans (sort_perm S).symm) hs (sort_sorted S)

theorem sort_mean (S : List ℚ) :
    accumulate (sort S) / ((sort S).length : ℚ) = S.sum / (S.length : ℚ) := by
  rw [accumulate_eq_sum, sort_length, (sort_perm S).sum_eq]

/-- In the sorted series, a smaller index holds a smaller or equal sample. -/
theorem sort_getElem_mono (S : List ℚ) (i j : Nat) (hij : i ≤ j) (a b : ℚ)
    (ha : (sort S)[i]? = some a) (hb : (sort S)[j]? = some b) : a ≤ b := by
  obtain ⟨hi, rfl⟩ := List.getElem?_eq_some.mp ha
  obtain ⟨hj, rfl⟩ := List.getElem?_eq_some.mp hb
  have h := (sort_sorted S).rel_get_of_le (show (⟨i, hi⟩ : Fin (sort S).length) ≤ ⟨j, hj⟩ from hij)
  simpa using h

theorem index99_lt (n : Nat) (h0 : 0 < n) (hn : n ≤ INT_MAX) : index99 n < n := by
  rw [index99_eq n hn]; omega

theorem index999_lt (n : Nat) (h0 : 0 < n) (hn : n ≤ INT_MAX) : index999 n < n := by
  rw [index999_eq n hn]; omega

/-- The results block of the latency procedures on a non-empty series. -/
theorem latencyResults_some (S : List ℚ) (hne : S ≠ []) (hlen : S.length ≤ INT_MAX) :
    ∃ r, latencyResults S = some r ∧ (sort S).head? = some r.min ∧
      r.avg = S.sum / (S.length : ℚ) ∧
      (sort S)[index99 S.length]? = some r.worst99 ∧
      (sort S)[index999 S.length]? = some r.worst999 := by
  have hpos : 0 < S.length := List.length_pos.mpr hne
  have h0 : 0 < (sort S).length := by rw [sort_length]; exact hpos
  have h1 : index99 S.length < (sort S).length := by
    rw [sort_length]; exact index99_lt _ hpos hlen
  have h2 : index999 S.length < (sort S).length := by
    rw [sort_length]; exact index999_lt _ hpos hlen
  obtain ⟨m, e0⟩ : ∃ m, (sort S).head? = some m :=
    ⟨_, List.head?_eq_head (List.ne_nil_of_length_pos h0)⟩
  obtain ⟨a, e1⟩ : ∃ a, (sort S)[index99 S.length]? = some a :=
    ⟨_, List.getElem?_eq_getElem h1⟩
  obtain ⟨b, e2⟩ : ∃ b, (sort S)[index999 S.length]? = some b :=
    ⟨_, List.getElem?_eq_getElem h2⟩
  refine ⟨{ min := m, avg := S.sum / (S.length : ℚ), worst99 := a, worst999 := b },
    ?_, e0, rfl, e1, e2⟩
  unfold latencyResults
  have hm := sort_mean S
  rw [sort_length] at hm
  simp only [sort_length, e0, e1, e2, hm]

/-! ## Loops -/

/-- Shape shared by the three measurement loops: every iteration appends a block of
calls that depends on the counter, increments the counter, and pushes one sample. -/
theorem loop_series (body : Nat → Host × List ℚ → Host × List ℚ) (sample : Nat → ℚ)
    (hbody : ∀ i st, (body i st).2 = st.2 ++ [sample i]) (n : Nat) (st : Host × List ℚ) :
    ((List.range n).foldl (fun st i => body i st) st).2 = st.2 ++ (List.range n).map sample := by
  induction n with
  | zero => simp
  | succ k ih =>
    rw [List.range_succ, List.foldl_append, List.map_append, ← List.append_assoc, ← ih]
    simp [hbody]

theorem loop_host (body : Nat → Host × List ℚ → Host × List ℚ) (block : Nat → Nat → List Op)
    (hfv : ∀ i st, (body i st).1.fenceValue = (st.1.fenceValue + 1) % 2 ^ 64)
    (htr : ∀ i st, (body i st).1.trace = st.1.trace ++ block i st.1.fenceValue)
    (n : Nat) (st : Host × List ℚ) (hn : st.1.fenceValue + n < 2 ^ 64) :
    ((List.range n).foldl (fun st i => body i st) st).1.fenceValue = st.1.fenceValue + n ∧
    ((List.range n).foldl (fun st i => body i st) st).1.trace =
      st.1.trace ++ (List.range n).flatMap (fun i => block i (st.1.fenceValue + i)) := by
  induction n with
  | zero => simp
  | succ k ih =>
    obtain ⟨ih1, ih2⟩ := ih (by omega)
    rw [List.range_succ, List.foldl_append, List.flatMap_append]
    simp only [List.foldl_cons, List.foldl_nil, List.flatMap_cons, List.flatMap_nil,
      List.append_nil]
    rw [hfv, htr, ih1, ih2, List.append_assoc]
    refine ⟨?_, rfl⟩
    rw [Nat.mod_eq_of_lt (by omega)]
    omega

theorem bandwidthBatch_eq (b : Nat) (c : Int) (f : Nat) (o : BandwidthObs)
    (st : Host × List ℚ) :
    bandwidthBatch b c f o st =
      ({ fenceValue := (st.1.fenceValue + 1) % 2 ^ 64
         trace := st.1.trace ++
          (bandwidthRecord c ++ fenceOps st.1.fenceValue o.completed ++ [Op.map, Op.unmap]) },
       st.2 ++ [bandwidthSample b c f o.ts0 o.ts1]) := by
  simp [bandwidthBatch, WaitForFence, Host.emit, List.append_assoc]

theorem latencyIteration_eq (period : ℚ) (o : LatencyObs) (st : Host × List ℚ) :
    latencyIteration period o st =
      ({ fenceValue := (st.1.fenceValue + 1) % 2 ^ 64
         trace := st.1.trace ++
          ([Op.allocatorReset, Op.listReset, Op.now o.start, Op.copyResource, Op.close,
            Op.executeCommandLists] ++ fenceOps st.1.fenceValue o.completed ++
            [Op.now o.stop]) },
       st.2 ++ [latencySample period o.start o.stop]) := by
  simp [latencyIteration, WaitForFence, Host.emit, List.append_assoc]

theorem commandLatencyIteration_eq (period : ℚ) (o : LatencyObs) (st : Host × List ℚ) :
    commandLatencyIteration period o st =
      ({ fenceValue := (st.1.fenceValue + 1) % 2 ^ 64
         trace := st.1.trace ++
          ([Op.allocatorReset, Op.listReset, Op.close, Op.now o.start,
            Op.executeCommandLists] ++ fenceOps st.1.fenceValue o.completed ++
            [Op.now o.stop]) },
       st.2 ++ [latencySample period o.start o.stop]) := by
  simp [commandLatencyIteration, WaitForFence, Host.emit, List.append_assoc]

/-- The series of `RunBandwidthTest` holds one sample per batch. -/
theorem bandwidthLoop_series (b : Nat) (c n : Int) (f : Nat) (obs : Nat → BandwidthObs)
    (h : Host) :
    (bandwidthLoop b c n f obs h).2 =
      (List.range n.toNat).map (fun i => bandwidthSample b c f (obs i).ts0 (obs i).ts1) := by
  have := loop_series (fun i st => bandwidthBatch b c f (obs i) st)
    (fun i => bandwidthSample b c f (obs i).ts0 (obs i).ts1)
    (fun i st => by simp [bandwidthBatch_eq]) n.toNat (h, [])
  simpa [bandwidthLoop] using this

theorem latencyLoop_series (period : ℚ) (n : Int) (obs : Nat → LatencyObs) (h : Host) :
    (latencyLoop period n obs h).2 =
      (List.range n.toNat).map (fun i => latencySample period (obs i).start (obs i).stop) := by
  have := loop_series (fun i st => latencyIteration period (obs i) st)
    (fun i => latencySample period (obs i).start (obs i).stop)
    (fun i st => by simp [latencyIteration_eq]) n.toNat (h, [])
  simpa [latencyLoop] using this

theorem commandLatencyLoop_series (period : ℚ) (n : Int) (obs : Nat → LatencyObs)
    (h : Host) :
    (commandLatencyLoop period n obs h).2 =
      (List.range n.toNat).map (fun i => latencySample period (obs i).start (obs i).stop) := by
  have := loop_series (fun i st => commandLatencyIteration period (obs i) st)
    (fun i => latencySample period (obs i).start (obs i).stop)
    (fun i st => by simp [commandLatencyIteration_eq]) n.toNat (h, [])
  simpa [commandLatencyLoop] using this

theorem bandwidthLoop_host (b : Nat) (c n : Int) (f : Nat) (obs : Nat → BandwidthObs)
    (h : Host) (hn : h.fenceValue + n.toNat < 2 ^ 64) :
    (bandwidthLoop b c n f obs h).1.fenceValue = h.fenceValue + n.toNat ∧
    (bandwidthLoop b c n f obs h).1.trace = h.trace ++
      (List.range n.toNat).flatMap (fun i =>
        bandwidthRecord c ++ fenceOps (h.fenceValue + i) (obs i).completed ++
          [Op.map, Op.unmap]) := by
  have := loop_host (fun i st => bandwidthBatch b c f (obs i) st)
    (fun i fv => bandwidthRecord c ++ fenceOps fv (obs i).completed ++ [Op.map, Op.unmap])
    (fun i st => by simp [bandwidthBatch_eq]) (fun i st => by simp [bandwidthBatch_eq])
    n.toNat (h, []) hn
  simpa [bandwidthLoop] using this

theorem latencyLoop_host (period : ℚ) (n : Int) (obs : Nat → LatencyObs)
    (h : Host) (hn : h.fenceValue + n.toNat < 2 ^ 64) :
    (latencyLoop period n obs h).1.fenceValue = h.fenceValue + n.toNat ∧
    (latencyLoop period n obs h).1.trace = h.trace ++
      (List.range n.toNat).flatMap (fun i =>
        [Op.allocatorReset, Op.listReset, Op.now (obs i).start, Op.copyResource, Op.close,
          Op.executeCommandLists] ++ fenceOps (h.fenceValue + i) (obs i).completed ++
          [Op.now (obs i).stop]) := by
  have := loop_host (fun i st => latencyIteration period (obs i) st)
    (fun i fv => [Op.allocatorReset, Op.listReset, Op.now (obs i).start, Op.copyResource,
      Op.close, Op.executeCommandLists] ++ fenceOps fv (obs i).completed ++
      [Op.now (obs i).stop])
    (fun i st => by simp [latencyIteration_eq]) (fun i st => by simp [latencyIteration_eq])
    n.toNat (h, []) hn
  simpa [latencyLoop] using this

theorem commandLatencyLoop_host (period : ℚ) (n : Int) (obs : Nat → LatencyObs)
    (h : Host) (hn : h.fenceValue + n.toNat < 2 ^ 64) :
    (commandLatencyLoop period n obs h).1.fenceValue = h.fenceValue + n.toNat ∧
    (commandLatencyLoop period n obs h).1.trace = h.trace ++
      (List.range n.toNat).flatMap (fun i =>
        [Op.allocatorReset, Op.listReset, Op.close, Op.now (obs i).start,
          Op.executeCommandLists] ++ fenceOps (h.fenceValue + i) (obs i).completed ++
          [Op.now (obs i).stop]) := by
  have := loop_host (fun i st => commandLatencyIteration period (obs i) st)
    (fun i fv => [Op.allocatorReset, Op.listReset, Op.close, Op.now (obs i).start,
      Op.executeCommandLists] ++ fenceOps fv (obs i).completed ++ [Op.now (obs i).stop])
    (fun i st => by simp [commandLatencyIteration_eq])
    (fun i st => by simp [commandLatencyIteration_eq])
    n.toNat (h, []) hn
  simpa [commandLatencyLoop] using this

theorem RunLatencyTest_fst (period : ℚ) (n : Int) (obs : Nat → LatencyObs) (h : Host) :
    (RunLatencyTest period n obs h).1 = (latencyLoop period n obs h).1 := by
  unfold RunLatencyTest
  split_ifs with hneg
  · have : n.toNat = 0 := by omega
    simp [latencyLoop, this]
  · rfl

theorem RunLatencyTest_snd (period : ℚ) (n : Int) (obs : Nat → LatencyObs) (h : Host) :
    (RunLatencyTest period n obs h).2 = latencyResults (latencyLoop period n obs h).2 := by
  unfold RunLatencyTest
  split_ifs with hneg
  · have : n.toNat = 0 := by omega
    rw [latencyLoop_series, this]
    rfl
  · rfl

theorem RunCommandLatencyTest_fst (period : ℚ) (n : Int) (obs : Nat → LatencyObs)
    (h : Host) :
    (RunCommandLatencyTest period n obs h).1 = (commandLatencyLoop period n obs h).1 := by
  unfold RunCommandLatencyTest
  split_ifs with hneg
  · have : n.toNat = 0 := by omega
    simp [commandLatencyLoop, this]
  · rfl

theorem RunCommandLatencyTest_snd (period : ℚ) (n : Int) (obs : Nat → LatencyObs)
    (h : Host) :
    (RunCommandLatencyTest period n obs h).2 =
      latencyResults (commandLatencyLoop period n obs h).2 := by
  unfold RunCommandLatencyTest
  split_ifs with hneg
  · have : n.toNat = 0 := by omega
    rw [commandLatencyLoop_series, this]
    rfl
  · rfl

theorem bandwidthResults_some (S : List ℚ) (hne : S ≠ []) :
    ∃ r, bandwidthResults S = some r ∧ r.avg = S.sum / (S.length : ℚ) ∧
      r.min ∈ S ∧ (∀ x ∈ S, r.min ≤ x) ∧ r.max ∈ S ∧ (∀ x ∈ S, x ≤ r.max) := by
  obtain ⟨mn, e1, h1, h2⟩ := min_element_spec S hne
  obtain ⟨mx, e2, h3, h4⟩ := max_element_spec S hne
  refine ⟨{ min := mn, avg := S.sum / (S.length : ℚ), max := mx }, ?_, rfl, h1, h2, h3, h4⟩
  unfold bandwidthResults
  simp only [e1, e2, accumulate_eq_sum]

/-- C1. For every non-empty sample series `S` whose length an `int` can hold, the
latency results block (the one `RunLatencyTest` and `RunCommandLatencyTest` both run
on their series) produces a report; the index the code computes for the 99% and
the 99.9% value is `floor(p * n)` clamped to `n - 1`, it is within bounds, and the
reported value is the element of the ascending rearrangement of `S` at that
index. -/
theorem percentile_nearest_rank (S : List ℚ) (hne : S ≠ []) (hlen : S.length ≤ INT_MAX)
    (period : ℚ) (iterations : Int) (obs : Nat → LatencyObs) (h : Host) :
    (RunLatencyTest period iterations obs h).2 =
      latencyResults (latencyLoop period iterations obs h).2 ∧
    (RunCommandLatencyTest period iterations obs h).2 =
      latencyResults (commandLatencyLoop period iterations obs h).2 ∧
    ∃ r, latencyResults S = some r ∧
      index99 S.length = min ⌊(99 / 100 : ℚ) * (S.length : ℚ)⌋₊ (S.length - 1) ∧
      index999 S.length = min ⌊(999 / 1000 : ℚ) * (S.length : ℚ)⌋₊ (S.length - 1) ∧
      index99 S.length < S.length ∧ index999 S.length < S.length ∧
      (sort S)[index99 S.length]? = some r.worst99 ∧
      (sort S)[index999 S.length]? = some r.worst999 ∧
      List.Sorted (fun a b => a ≤ b) (sort S) ∧ (sort S).Perm S := by
  obtain ⟨r, hr, _, _, h99, h999⟩ := latencyResults_some S hne hlen
  have hpos : 0 < S.length := List.length_pos.mpr hne
  have f1 : ⌊(99 / 100 : ℚ) * (S.length : ℚ)⌋₊ = 99 * S.length / 100 := by
    have := floor_ratio 99 100 S.length
    simpa using this
  have f2 : ⌊(999 / 1000 : ℚ) * (S.length : ℚ)⌋₊ = 999 * S.length / 1000 := by
    have := floor_ratio 999 1000 S.length
    simpa using this
  refine ⟨RunLatencyTest_snd _ _ _ _, RunCommandLatencyTest_snd _ _ _ _,
    r, hr, ?_, ?_, index99_lt _ hpos hlen, index999_lt _ hpos hlen, h99, h999,
    sort_sorted S, sort_perm S⟩
  · rw [f1, index99_eq _ hlen]; omega
  · rw [f2, index999_eq _ hlen]; omega

theorem percentile_nearest_rank_witness :
    index99 10 = 9 ∧
      ∃ r, latencyResults [1, 2, 3, 4, 5, 6, 7, 8, 9, 10] = some r ∧ r.worst99 = 10 := by
  obtain ⟨_, _, r, hr, _, _, _, _, h99, _⟩ :=
    percentile_nearest_rank [1, 2, 3, 4, 5, 6, 7, 8, 9, 10] (by simp) (by decide)
      (1 / 1000) 10 exampleObs.test4 initialHost
  refine ⟨by decide, r, hr, ?_⟩
  have e : (sort [1, 2, 3, 4, 5, 6, 7, 8, 9, 10])[index99 10]? = some (10 : ℚ) := by decide
  have h99b : (sort [1, 2, 3, 4, 5, 6, 7, 8, 9, 10])[index99 10]? = some r.worst99 := h99
  rw [e] at h99b
  exact (Option.some.inj h99b).symm

theorem percentile_99 (S : List ℚ) (hlen : S.length ≤ INT_MAX) :
    percentile S (99 / 100) = (sort S)[index99 S.length]? := by
  unfold percentile
  have := floor_ratio 99 100 S.length
  simp only [Nat.cast_ofNat] at this
  rw [this, index99_eq _ hlen]

theorem percentile_999 (S : List ℚ) (hlen : S.length ≤ INT_MAX) :
    percentile S (999 / 1000) = (sort S)[index999 S.length]? := by
  unfold percentile
  have := floor_ratio 999 1000 S.length
  simp only [Nat.cast_ofNat] at this
  rw [this, index999_eq _ hlen]

theorem percentile_some (S : List ℚ) (hne : S ≠ []) (p : ℚ) (h0 : 0 ≤ p) (h1 : p < 1) :
    ∃ a, percentile S p = some a := by
  have hpos : (0 : ℚ) < (S.length : ℚ) := by exact_mod_cast List.length_pos.mpr hne
  have hlt : ⌊p * (S.length : ℚ)⌋₊ < (sort S).length := by
    rw [sort_length, Nat.floor_lt (mul_nonneg h0 hpos.le)]
    calc p * (S.length : ℚ) < 1 * (S.length : ℚ) := mul_lt_mul_of_pos_right h1 hpos
      _ = (S.length : ℚ) := one_mul _
  exact ⟨_, List.getElem?_eq_getElem hlt⟩

/-- C8. For every non-empty sample series `S` and fractions `0 ≤ p1 < p2 < 1`, the
nearest-rank percentile is monotone: `percentile S p1 ≤ percentile S p2`. The
values the latency procedures report are `percentile S 0.99` and
`percentile S 0.999`; the reported 99% value is at most the reported 99.9% value
and the reported minimum is at most either. -/
theorem percentile_monotone (S : List ℚ) (hne : S ≠ []) (hlen : S.length ≤ INT_MAX)
    (p1 p2 : ℚ) (h0 : 0 ≤ p1) (h12 : p1 < p2) (h1 : p2 < 1) :
    (∃ a b, percentile S p1 = some a ∧ percentile S p2 = some b ∧ a ≤ b) ∧
    (∃ r, latencyResults S = some r ∧
      percentile S (99 / 100) = some r.worst99 ∧
      percentile S (999 / 1000) = some r.worst999 ∧
      r.worst99 ≤ r.worst999 ∧ r.min ≤ r.worst99 ∧ r.min ≤ r.worst999) := by
  constructor
  · obtain ⟨a, ha⟩ := percentile_some S hne p1 h0 (lt_trans h12 h1)
    obtain ⟨b, hb⟩ := percentile_some S hne p2 (le_trans h0 h12.le) h1
    refine ⟨a, b, ha, hb, ?_⟩
    have hn : (0 : ℚ) ≤ (S.length : ℚ) := Nat.cast_nonneg _
    exact sort_getElem_mono S _ _
      (Nat.floor_mono (mul_le_mul_of_nonneg_right h12.le hn)) a b ha hb
  · obtain ⟨r, hr, hmin, _, h99, h999⟩ := latencyResults_some S hne hlen
    have hmin0 : (sort S)[0]? = some r.min := by rw [← List.head?_eq_getElem?]; exact hmin
    refine ⟨r, hr, ?_, ?_, ?_, ?_, ?_⟩
    · rw [percentile_99 S hlen]; exact h99
    · rw [percentile_999 S hlen]; exact h999
    · refine sort_getElem_mono S _ _ ?_ _ _ h99 h999
      rw [index99_eq _ hlen, index999_eq _ hlen]; omega
    · exact sort_getElem_mono S 0 _ (Nat.zero_le _) _ _ hmin0 h99
    · exact sort_getElem_mono S 0 _ (Nat.zero_le _) _ _ hmin0 h999

theorem percentile_monotone_witness :
    ∃ a b, percentile [3, 1, 2] (1 / 3) = some a ∧ percentile [3, 1, 2] (2 / 3) = some b ∧
      a ≤ b :=
  (percentile_monotone [3, 1, 2] (by simp) (by decide) (1 / 3) (2 / 3)
    (by norm_num) (by norm_num) (by norm_num)).1

/-- C3, counterexample. With `bufferSize = 256 * 1024 * 1024`, `copiesPerBatch = 8`,
a tick frequency of 1000 and timestamps 0 and 1000 (a duration of exactly one
second) the sample is 2, not 16. -/
theorem bandwidth_one_second_is_not_16 :
    bandwidthSample (256 * 1024 * 1024) 8 1000 0 1000 = 2 ∧
      bandwidthSample (256 * 1024 * 1024) 8 1000 0 1000 ≠ 16 := by
  have h : bandwidthSample (256 * 1024 * 1024) 8 1000 0 1000 = 2 := by
    unfold bandwidthSample; norm_num
  exact ⟨h, by rw [h]; norm_num⟩

theorem uint64_sub (t0 t1 : Nat) (h01 : t0 < t1) (h1 : t1 < 2 ^ 64) :
    (t1 % 2 ^ 64 + 2 ^ 64 - t0 % 2 ^ 64) % 2 ^ 64 = t1 - t0 := by
  omega

/-- C3, amended. For every batch of `RunBandwidthTest` with start tick `ts0`, end
tick `ts1 > ts0` and tick frequency `f > 0`, the sample appended is
`(bufferSize * copiesPerBatch / 1024 ^ 3) / ((ts1 - ts0) / f)`; for
`bufferSize = 256 * 1024 * 1024`, `copiesPerBatch = 8` and a duration of exactly one
second (`ts1 - ts0 = f`) the sample appended is exactly 2. -/
theorem bandwidth_sample_formula (bufferSize : Nat) (copiesPerBatch : Int) (f : Nat)
    (o : BandwidthObs) (st : Host × List ℚ) (hf : 0 < f) (h01 : o.ts0 < o.ts1)
    (h1 : o.ts1 < 2 ^ 64) :
    (bandwidthBatch bufferSize copiesPerBatch f o st).2 =
        st.2 ++ [(((bufferSize : ℚ) * (copiesPerBatch : ℚ)) / 1024 ^ 3) /
          (((o.ts1 - o.ts0 : Nat) : ℚ) / (f : ℚ))] ∧
      (o.ts1 - o.ts0 = f →
        (bandwidthBatch (256 * 1024 * 1024) 8 f o st).2 = st.2 ++ [2]) := by
  have hs : ∀ (b : Nat) (c : Int), bandwidthSample b c f o.ts0 o.ts1 =
      (((b : ℚ) * (c : ℚ)) / 1024 ^ 3) / (((o.ts1 - o.ts0 : Nat) : ℚ) / (f : ℚ)) := by
    intro b c
    unfold bandwidthSample
    simp only [uint64_sub o.ts0 o.ts1 h01 h1]
    norm_num
  refine ⟨?_, ?_⟩
  · simp only [bandwidthBatch, hs]
  · intro hd
    have hf0 : (f : ℚ) ≠ 0 := by exact_mod_cast hf.ne'
    simp only [bandwidthBatch, hs, hd, div_self hf0]
    norm_num

theorem bandwidth_sample_formula_witness :
    (bandwidthBatch (256 * 1024 * 1024) 8 1000
        { completed := 1, ts0 := 500, ts1 := 1500 } (initialHost, [])).2 = [2] :=
  (bandwidth_sample_formula (256 * 1024 * 1024) 8 1000
    { completed := 1, ts0 := 500, ts1 := 1500 } (initialHost, [])
    (by decide) (by decide) (by decide)).2 (by decide)

/-! ## Signaled values -/

theorem signals_append (a b : List Op) : signals (a ++ b) = signals a ++ signals b := by
  induction a with
  | nil => rfl
  | cons op ops ih => cases op <;> simp [signals, ih]

theorem signals_replicate_copy (k : Nat) : signals (List.replicate k Op.copyResource) = [] := by
  induction k with
  | zero => rfl
  | succ k ih => simp [List.replicate_succ, signals, ih]

theorem signals_fenceOps (fv c : Nat) : signals (fenceOps fv c) = [fv] := by
  unfold fenceOps
  split_ifs <;> simp [signals]

theorem signals_blocks (block : Nat → Nat → List Op)
    (hblock : ∀ i fv, signals (block i fv) = [fv]) (n fv : Nat) :
    signals ((List.range n).flatMap (fun i => block i (fv + i))) = List.range' fv n := by
  induction n with
  | zero => rfl
  | succ k ih =>
    rw [List.range_succ, List.flatMap_append, signals_append, ih, List.range'_1_concat]
    simp [hblock]

theorem signals_bandwidth_block (c : Int) (fv comp : Nat) :
    signals (bandwidthRecord c ++ fenceOps fv comp ++ [Op.map, Op.unmap]) = [fv] := by
  rw [signals_append, signals_append, signals_fenceOps]
  unfold bandwidthRecord
  rw [signals_append, signals_append, signals_replicate_copy]
  simp [signals]

theorem signals_latency_block (fv comp : Nat) (t0 t1 : Int) :
    signals ([Op.allocatorReset, Op.listReset, Op.now t0, Op.copyResource, Op.close,
      Op.executeCommandLists] ++ fenceOps fv comp ++ [Op.now t1]) = [fv] := by
  rw [signals_append, signals_append, signals_fenceOps]
  simp [signals]

theorem signals_command_block (fv comp : Nat) (t0 t1 : Int) :
    signals ([Op.allocatorReset, Op.listReset, Op.close, Op.now t0,
      Op.executeCommandLists] ++ fenceOps fv comp ++ [Op.now t1]) = [fv] := by
  rw [signals_append, signals_append, signals_fenceOps]
  simp [signals]

/-! ## The synchronisation discipline -/

theorem Sync.run_append (a b : List Op) : ∀ s : Sync,
    Sync.run s (a ++ b) = (Sync.run s a).bind (fun s' => Sync.run s' b) := by
  induction a with
  | nil => intro s; rfl
  | cons op ops ih =>
    intro s
    simp only [List.cons_append, Sync.run]
    cases h : s.step op with
    | none => rfl
    | some s' => simp [ih]

theorem Sync.run_replicate_copy (k : Nat) (s : Sync) (rest : List Op) :
    Sync.run s (List.replicate k Op.copyResource ++ rest) = Sync.run s rest := by
  induction k with
  | zero => rfl
  | succ k ih => simp [List.replicate_succ, Sync.run, Sync.step, ih]

/-- After `WaitForFence` the host has observed completion of everything submitted. -/
theorem Sync.run_fenceOps (s : Sync) (fv c : Nat) (h : s.lastSignal < fv) :
    ∃ s', Sync.run s (fenceOps fv c) = some s' ∧ s'.inFlight = 0 ∧ s'.lastSignal = fv ∧
      s'.resolved = (s.resolved || s.resolveInFlight) ∧
      s'.resolveRecorded = s.resolveRecorded := by
  unfold fenceOps
  by_cases hc : c < fv
  · simp [hc, Sync.run, Sync.step, Sync.retire, h, Nat.not_le.mpr hc]
  · simp [hc, Sync.run, Sync.step, Sync.retire, h, Nat.le_of_not_lt hc]

theorem Sync.run_bandwidth_block (c : Int) (fv comp : Nat) (s : Sync)
    (h0 : s.inFlight = 0) (h1 : s.lastSignal < fv) :
    ∃ s', Sync.run s (bandwidthRecord c ++ fenceOps fv comp ++ [Op.map, Op.unmap]) = some s' ∧
      s'.inFlight = 0 ∧ s'.lastSignal = fv := by
  obtain ⟨s1, e1, a1, a2, a3, _⟩ := Sync.run_fenceOps
    { s with inFlight := 1, signaled := false, resolveInFlight := true, resolved := false,
             resolveRecorded := true } fv comp h1
  refine ⟨s1, ?_, a1, a2⟩
  have hpre : Sync.run s (bandwidthRecord c) =
      some { s with inFlight := 1, signaled := false, resolveInFlight := true,
                    resolved := false, resolveRecorded := true } := by
    unfold bandwidthRecord
    have h3 : Sync.run s [Op.allocatorReset, Op.listReset, Op.endQuery 0] =
        some { s with resolveRecorded := false } := by
      simp [Sync.run, Sync.step, h0]
    rw [List.append_assoc, Sync.run_append, h3, Option.some_bind, Sync.run_replicate_copy]
    simp [Sync.run, Sync.step, h0]
  rw [List.append_assoc, Sync.run_append, hpre, Option.some_bind, Sync.run_append, e1,
    Option.some_bind]
  simp at a3
  simp [Sync.run, Sync.step, a1, a3]

theorem Sync.run_latency_block (fv comp : Nat) (t0 t1 : Int) (s : Sync)
    (h0 : s.inFlight = 0) (h1 : s.lastSignal < fv) :
    ∃ s', Sync.run s ([Op.allocatorReset, Op.listReset, Op.now t0, Op.copyResource, Op.close,
        Op.executeCommandLists] ++ fenceOps fv comp ++ [Op.now t1]) = some s' ∧
      s'.inFlight = 0 ∧ s'.lastSignal = fv := by
  obtain ⟨s1, e1, a1, a2, _⟩ := Sync.run_fenceOps
    { s with inFlight := 1, signaled := false, resolveInFlight := false,
             resolveRecorded := false } fv comp h1
  refine ⟨s1, ?_, a1, a2⟩
  have hpre : Sync.run s [Op.allocatorReset, Op.listReset, Op.now t0, Op.copyResource,
      Op.close, Op.executeCommandLists] =
      some { s with inFlight := 1, signaled := false, resolveInFlight := false,
                    resolveRecorded := false } := by
    simp [Sync.run, Sync.step, h0]
  rw [List.append_assoc, Sync.run_append, hpre, Option.some_bind, Sync.run_append, e1,
    Option.some_bind]
  simp [Sync.run, Sync.step]

theorem Sync.run_command_block (fv comp : Nat) (t0 t1 : Int) (s : Sync)
    (h0 : s.inFlight = 0) (h1 : s.lastSignal < fv) :
    ∃ s', Sync.run s ([Op.allocatorReset, Op.listReset, Op.close, Op.now t0,
        Op.executeCommandLists] ++ fenceOps fv comp ++ [Op.now t1]) = some s' ∧
      s'.inFlight = 0 ∧ s'.lastSignal = fv := by
  obtain ⟨s1, e1, a1, a2, _⟩ := Sync.run_fenceOps
    { s with inFlight := 1, signaled := false, resolveInFlight := false,
             resolveRecorded := false } fv comp h1
  refine ⟨s1, ?_, a1, a2⟩
  have hpre : Sync.run s [Op.allocatorReset, Op.listReset, Op.close, Op.now t0,
      Op.executeCommandLists] =
      some { s with inFlight := 1, signaled := false, resolveInFlight := false,
                    resolveRecorded := false } := by
    simp [Sync.run, Sync.step, h0]
  rw [List.append_assoc, Sync.run_append, hpre, Option.some_bind, Sync.run_append, e1,
    Option.some_bind]
  simp [Sync.run, Sync.step]

theorem Sync.run_blocks (block : Nat → Nat → List Op)
    (hblock : ∀ i fv (s : Sync), s.inFlight = 0 → s.lastSignal < fv →
      ∃ s', Sync.run s (block i fv) = some s' ∧ s'.inFlight = 0 ∧ s'.lastSignal = fv)
    (n fv : Nat) (s : Sync) (h0 : s.inFlight = 0) (h1 : s.lastSignal < fv) :
    ∃ s', Sync.run s ((List.range n).flatMap (fun i => block i (fv + i))) = some s' ∧
      s'.inFlight = 0 ∧ s'.lastSignal < fv + n := by
  induction n with
  | zero => exact ⟨s, rfl, h0, h1⟩
  | succ k ih =>
    obtain ⟨s1, e1, a1, a2⟩ := ih
    obtain ⟨s2, e2, b1, b2⟩ := hblock k (fv + k) s1 a1 a2
    refine ⟨s2, ?_, b1, by omega⟩
    rw [List.range_succ, List.flatMap_append, Sync.run_append, e1, Option.some_bind]
    simpa using e2

/-! ## Effect of one procedure on the host state -/

theorem sync_extend (h : Host) (hs : h.Synchronised) (blocks : List Op) (fv' : Nat)
    (hrun : ∀ s : Sync, s.inFlight = 0 → s.lastSignal < h.fenceValue →
      ∃ s', Sync.run s blocks = some s' ∧ s'.inFlight = 0 ∧ s'.lastSignal < fv') :
    Host.Synchronised { fenceValue := fv', trace := h.trace ++ blocks } := by
  obtain ⟨s, e, a1, a2⟩ := hs
  obtain ⟨s', e', b1, b2⟩ := hrun s a1 a2
  exact ⟨s', by simp [Sync.run_append, e, e'], b1, b2⟩

theorem bandwidthLoop_effect (b : Nat) (c n : Int) (f : Nat) (obs : Nat → BandwidthObs)
    (h : Host) (hn : h.fenceValue + n.toNat < 2 ^ 64) :
    (bandwidthLoop b c n f obs h).1.fenceValue = h.fenceValue + n.toNat ∧
    signals (bandwidthLoop b c n f obs h).1.trace =
      signals h.trace ++ List.range' h.fenceValue n.toNat ∧
    (h.Synchronised → (bandwidthLoop b c n f obs h).1.Synchronised) := by
  obtain ⟨e1, e2⟩ := bandwidthLoop_host b c n f obs h hn
  refine ⟨e1, ?_, ?_⟩
  · rw [e2, signals_append]
    congr 1
    exact signals_blocks
      (fun i fv => bandwidthRecord c ++ fenceOps fv (obs i).completed ++ [Op.map, Op.unmap])
      (fun i fv => signals_bandwidth_block c fv _) _ _
  · intro hs
    have := sync_extend h hs _ (h.fenceValue + n.toNat) (fun s a1 a2 => Sync.run_blocks
      (fun i fv => bandwidthRecord c ++ fenceOps fv (obs i).completed ++ [Op.map, Op.unmap])
      (fun i fv s h0 h1 => Sync.run_bandwidth_block c fv _ s h0 h1) n.toNat h.fenceValue s a1 a2)
    rw [← e1, ← e2] at this
    exact this

theorem latencyLoop_effect (period : ℚ) (n : Int) (obs : Nat → LatencyObs)
    (h : Host) (hn : h.fenceValue + n.toNat < 2 ^ 64) :
    (latencyLoop period n obs h).1.fenceValue = h.fenceValue + n.toNat ∧
    signals (latencyLoop period n obs h).1.trace =
      signals h.trace ++ List.range' h.fenceValue n.toNat ∧
    (h.Synchronised → (latencyLoop period n obs h).1.Synchronised) := by
  obtain ⟨e1, e2⟩ := latencyLoop_host period n obs h hn
  refine ⟨e1, ?_, ?_⟩
  · rw [e2, signals_append]
    congr 1
    exact signals_blocks
      (fun i fv => [Op.allocatorReset, Op.listReset, Op.now (obs i).start, Op.copyResource,
        Op.close, Op.executeCommandLists] ++ fenceOps fv (obs i).completed ++
        [Op.now (obs i).stop])
      (fun i fv => signals_latency_block fv _ _ _) _ _
  · intro hs
    have := sync_extend h hs _ (h.fenceValue + n.toNat) (fun s a1 a2 => Sync.run_blocks
      (fun i fv => [Op.allocatorReset, Op.listReset, Op.now (obs i).start, Op.copyResource,
        Op.close, Op.executeCommandLists] ++ fenceOps fv (obs i).completed ++
        [Op.now (obs i).stop])
      (fun i fv s h0 h1 => Sync.run_latency_block fv _ _ _ s h0 h1) n.toNat h.fenceValue s a1 a2)
    rw [← e1, ← e2] at this
    exact this

theorem commandLatencyLoop_effect (period : ℚ) (n : Int) (obs : Nat → LatencyObs)
    (h : Host) (hn : h.fenceValue + n.toNat < 2 ^ 64) :
    (commandLatencyLoop period n obs h).1.fenceValue = h.fenceValue + n.toNat ∧
    signals (commandLatencyLoop period n obs h).1.trace =
      signals h.trace ++ List.range' h.fenceValue n.toNat ∧
    (h.Synchronised → (commandLatencyLoop period n obs h).1.Synchronised) := by
  obtain ⟨e1, e2⟩ := commandLatencyLoop_host period n obs h hn
  refine ⟨e1, ?_, ?_⟩
  · rw [e2, signals_append]
    congr 1
    exact signals_blocks
      (fun i fv => [Op.allocatorReset, Op.listReset, Op.close, Op.now (obs i).start,
        Op.executeCommandLists] ++ fenceOps fv (obs i).completed ++ [Op.now (obs i).stop])
      (fun i fv => signals_command_block fv _ _ _) _ _
  · intro hs
    have := sync_extend h hs _ (h.fenceValue + n.toNat) (fun s a1 a2 => Sync.run_blocks
      (fun i fv => [Op.allocatorReset, Op.listReset, Op.close, Op.now (obs i).start,
        Op.executeCommandLists] ++ fenceOps fv (obs i).completed ++ [Op.now (obs i).stop])
      (fun i fv s h0 h1 => Sync.run_command_block fv _ _ _ s h0 h1) n.toNat h.fenceValue s a1 a2)
    rw [← e1, ← e2] at this
    exact this

theorem initialHost_synchronised : initialHost.Synchronised :=
  ⟨Sync.init, rfl, rfl, by decide⟩

/-- The whole run: counter, signaled values and discipline. -/
theorem mainWith_effect (LargeSize : Nat)
    (CommandIters TransferIters CopiesPerBatch BandwidthBatches : Int) (env : RunObs)
    (h1 : BandwidthBatches ≤ (INT_MAX : Int)) (h2 : CommandIters ≤ (INT_MAX : Int))
    (h3 : TransferIters ≤ (INT_MAX : Int)) :
    (mainWith LargeSize CommandIters TransferIters CopiesPerBatch BandwidthBatches env).1.fenceValue
      = 1 + (2 * BandwidthBatches.toNat + CommandIters.toNat + 2 * TransferIters.toNat) ∧
    signals
      (mainWith LargeSize CommandIters TransferIters CopiesPerBatch BandwidthBatches env).1.trace
      = List.range' 1 (2 * BandwidthBatches.toNat + CommandIters.toNat + 2 * TransferIters.toNat) ∧
    (mainWith LargeSize CommandIters TransferIters CopiesPerBatch
      BandwidthBatches env).1.Synchronised := by
  have b1 : BandwidthBatches.toNat ≤ 2147483647 := by unfold INT_MAX at h1; omega
  have b2 : CommandIters.toNat ≤ 2147483647 := by unfold INT_MAX at h2; omega
  have b3 : TransferIters.toNat ≤ 2147483647 := by unfold INT_MAX at h3; omega
  have i0 : initialHost.fenceValue = 1 := rfl
  have t0 : signals initialHost.trace = [] := rfl
  obtain ⟨f1, s1, y1⟩ := bandwidthLoop_effect LargeSize CopiesPerBatch BandwidthBatches
    env.freq1 env.test1 initialHost (by rw [i0]; omega)
  obtain ⟨f2, s2, y2⟩ := bandwidthLoop_effect LargeSize CopiesPerBatch BandwidthBatches
    env.freq2 env.test2
    (bandwidthLoop LargeSize CopiesPerBatch BandwidthBatches env.freq1 env.test1 initialHost).1
    (by rw [f1, i0]; omega)
  obtain ⟨f3, s3, y3⟩ := commandLatencyLoop_effect env.period CommandIters env.test3
    (bandwidthLoop LargeSize CopiesPerBatch BandwidthBatches env.freq2 env.test2
      (bandwidthLoop LargeSize CopiesPerBatch BandwidthBatches env.freq1 env.test1
        initialHost).1).1
    (by rw [f2, f1, i0]; omega)
  obtain ⟨f4, s4, y4⟩ := latencyLoop_effect env.period TransferIters env.test4
    (commandLatencyLoop env.period CommandIters env.test3
      (bandwidthLoop LargeSize CopiesPerBatch BandwidthBatches env.freq2 env.test2
        (bandwidthLoop LargeSize CopiesPerBatch BandwidthBatches env.freq1 env.test1
          initialHost).1).1).1
    (by rw [f3, f2, f1, i0]; omega)
  obtain ⟨f5, s5, y5⟩ := latencyLoop_effect env.period TransferIters env.test5
    (latencyLoop env.period TransferIters env.test4
      (commandLatencyLoop env.period CommandIters env.test3
        (bandwidthLoop LargeSize CopiesPerBatch BandwidthBatches env.freq2 env.test2
          (bandwidthLoop LargeSize CopiesPerBatch BandwidthBatches env.freq1 env.test1
            initialHost).1).1).1).1
    (by rw [f4, f3, f2, f1, i0]; omega)
  simp only [mainWith, RunBandwidthTest, RunLatencyTest_fst, RunCommandLatencyTest_fst]
  refine ⟨?_, ?_, ?_⟩
  · rw [f5, f4, f3, f2, f1, i0]; omega
  · rw [s5, s4, s3, s2, s1, t0, f4, f3, f2, f1, i0, List.nil_append]
    have happ : ∀ a m b n : Nat, b = a + m →
        List.range' a m ++ List.range' b n = List.range' a (m + n) := by
      intro a m b n hb
      rw [hb, List.range'_append_1, Nat.add_comm]
    rw [happ _ _ _ _ rfl, happ _ _ _ _ (by omega), happ _ _ _ _ (by omega),
      happ _ _ _ _ (by omega)]
    congr 1
    omega
  · exact y5 (y4 (y3 (y2 (y1 initialHost_synchronised))))

/-! ## The discipline is not vacuous -/

/-- Traces that break the discipline are rejected: a reset while a batch is
outstanding, a second submission while one is outstanding, a reset after a fence
check that saw the device behind the signal, a read of the readback before any
retired resolve, and a signal that repeats an earlier value. -/
theorem Sync.run_rejects :
    Sync.run Sync.init [Op.executeCommandLists, Op.allocatorReset] = none ∧
    Sync.run Sync.init [Op.executeCommandLists, Op.executeCommandLists] = none ∧
    Sync.run Sync.init [Op.executeCommandLists, Op.signal 1, Op.getCompletedValue 0,
      Op.listReset] = none ∧
    Sync.run Sync.init [Op.resolveQueryData, Op.close, Op.executeCommandLists, Op.map] = none ∧
    Sync.run Sync.init [Op.signal 1, Op.getCompletedValue 1, Op.signal 1] = none := by
  decide

theorem Sync.step_inFlight_le (s s' : Sync) (op : Op) (h : s.step op = some s')
    (hs : s.inFlight ≤ 1) : s'.inFlight ≤ 1 := by
  cases op <;> simp only [Sync.step] at h <;> (try split_ifs at h) <;>
    (try simp only [Option.some.injEq] at h) <;>
    (try subst h) <;> (try simp [Sync.retire]) <;> (try omega)

theorem Sync.run_prefix (a b : List Op) : ∀ s s' : Sync,
    Sync.run s (a ++ b) = some s' → s.inFlight ≤ 1 →
    ∃ s1, Sync.run s a = some s1 ∧ s1.inFlight ≤ 1 := by
  induction a with
  | nil => intro s s' _ hs; exact ⟨s, rfl, hs⟩
  | cons op ops ih =>
    intro s s' h hs
    simp only [List.cons_append, Sync.run] at h ⊢
    cases hstep : s.step op with
    | none => rw [hstep] at h; simp at h
    | some s2 =>
      rw [hstep] at h
      exact ih s2 s' h (Sync.step_inFlight_le s s2 op hstep hs)

theorem waitForFence_calls (cs : List Nat) : ∀ h : Host, h.fenceValue + cs.length < 2 ^ 64 →
    (cs.foldl (fun st c => WaitForFence c st) h).fenceValue = h.fenceValue + cs.length := by
  induction cs with
  | nil => intro h _; rfl
  | cons c cs ih =>
    intro h hk
    simp only [List.length_cons] at hk
    have h1 : (WaitForFence c h).fenceValue = h.fenceValue + 1 := by
      simp only [WaitForFence]
      exact Nat.mod_eq_of_lt (by omega)
    rw [List.foldl_cons, ih (WaitForFence c h) (by rw [h1]; omega), h1, List.length_cons]
    omega

/-- C4. Every call of `WaitForFence` increases the counter by exactly 1, whatever
`GetCompletedValue` returns (whether or not the host blocks): from a counter `v0`,
`k` calls leave it at `v0 + k`, and each procedure run with `n ≥ 0` iterations leaves
the counter exactly `n` higher than it found it. The counter is a `UINT64`: the
statement is for values that stay below `2 ^ 64`. -/
theorem fence_counter_increments (h : Host) (cs : List Nat) (n : Int)
    (bufferSize : Nat) (copiesPerBatch : Int) (timestampFreq : Nat)
    (bobs : Nat → BandwidthObs) (period : ℚ) (lobs : Nat → LatencyObs)
    (hk : h.fenceValue + cs.length < 2 ^ 64) (hn : 0 ≤ n)
    (hnn : (h.fenceValue : Int) + n < 2 ^ 64) :
    (∀ completed, h.fenceValue + 1 < 2 ^ 64 →
      (WaitForFence completed h).fenceValue = h.fenceValue + 1) ∧
    (cs.foldl (fun st c => WaitForFence c st) h).fenceValue = h.fenceValue + cs.length ∧
    ((RunBandwidthTest bufferSize copiesPerBatch n timestampFreq bobs h).1.fenceValue : Int)
      = h.fenceValue + n ∧
    ((RunLatencyTest period n lobs h).1.fenceValue : Int) = h.fenceValue + n ∧
    ((RunCommandLatencyTest period n lobs h).1.fenceValue : Int) = h.fenceValue + n := by
  have hnat : h.fenceValue + n.toNat < 2 ^ 64 := by omega
  have hcast : ((h.fenceValue + n.toNat : Nat) : Int) = h.fenceValue + n := by omega
  refine ⟨?_, waitForFence_calls cs h hk, ?_, ?_, ?_⟩
  · intro completed h1
    simp only [WaitForFence]
    exact Nat.mod_eq_of_lt h1
  · simp only [RunBandwidthTest]
    rw [(bandwidthLoop_effect bufferSize copiesPerBatch n timestampFreq bobs h hnat).1, hcast]
  · rw [RunLatencyTest_fst, (latencyLoop_effect period n lobs h hnat).1, hcast]
  · rw [RunCommandLatencyTest_fst, (commandLatencyLoop_effect period n lobs h hnat).1, hcast]

theorem fence_counter_increments_witness :
    ([0, 7, 0].foldl (fun st c => WaitForFence c st) initialHost).fenceValue = 1 + 3 ∧
    ((RunCommandLatencyTest (1 / 1000) 3 exampleObs.test3 initialHost).1.fenceValue : Int)
      = 1 + 3 := by
  have h := fence_counter_increments initialHost [0, 7, 0] 3 1024 8 1000 exampleObs.test1
    (1 / 1000) exampleObs.test3 (by decide) (by decide) (by decide)
  exact ⟨h.2.1, h.2.2.2.2⟩

/-- C5. Over a whole run of `main` with any iteration counts an `int` can hold
(fence created at 0, counter starting at 1, the five procedures sharing the
counter): the values signaled on the queue are `1, 2, …, N` in this order, where `N` is
the total number of iterations, so each is strictly greater than the fence's
initial value and than every value signaled before it; no increment wraps
(`v + 1 < 2 ^ 64` for every signaled `v`) and the final counter is `1 + N < 2 ^ 64`. -/
theorem signals_strictly_increase (LargeSize : Nat)
    (CommandIters TransferIters CopiesPerBatch BandwidthBatches : Int) (env : RunObs)
    (h1 : BandwidthBatches ≤ (INT_MAX : Int)) (h2 : CommandIters ≤ (INT_MAX : Int))
    (h3 : TransferIters ≤ (INT_MAX : Int)) :
    signals
      (mainWith LargeSize CommandIters TransferIters CopiesPerBatch BandwidthBatches env).1.trace
      = List.range' 1 (2 * BandwidthBatches.toNat + CommandIters.toNat + 2 * TransferIters.toNat) ∧
    List.Pairwise (fun a b => a < b) (signals
      (mainWith LargeSize CommandIters TransferIters CopiesPerBatch
        BandwidthBatches env).1.trace) ∧
    (∀ v ∈ signals
      (mainWith LargeSize CommandIters TransferIters CopiesPerBatch BandwidthBatches env).1.trace,
      fenceInitialValue < v ∧ v + 1 < 2 ^ 64) ∧
    (mainWith LargeSize CommandIters TransferIters CopiesPerBatch BandwidthBatches env).1.fenceValue
      = 1 + (2 * BandwidthBatches.toNat + CommandIters.toNat + 2 * TransferIters.toNat) ∧
    (mainWith LargeSize CommandIters TransferIters CopiesPerBatch
      BandwidthBatches env).1.fenceValue < 2 ^ 64 ∧
    (∀ issued rest, issued ++ rest =
      (mainWith LargeSize CommandIters TransferIters CopiesPerBatch BandwidthBatches env).1.trace →
      List.Pairwise (fun a b => a < b) (signals issued) ∧
      ∀ v ∈ signals issued, fenceInitialValue < v ∧ v + 1 < 2 ^ 64) := by
  obtain ⟨e1, e2, _⟩ := mainWith_effect LargeSize CommandIters TransferIters CopiesPerBatch
    BandwidthBatches env h1 h2 h3
  have b1 : BandwidthBatches.toNat ≤ 2147483647 := by unfold INT_MAX at h1; omega
  have b2 : CommandIters.toNat ≤ 2147483647 := by unfold INT_MAX at h2; omega
  have b3 : TransferIters.toNat ≤ 2147483647 := by unfold INT_MAX at h3; omega
  have hall : ∀ v ∈ signals
      (mainWith LargeSize CommandIters TransferIters CopiesPerBatch BandwidthBatches env).1.trace,
      fenceInitialValue < v ∧ v + 1 < 2 ^ 64 := by
    intro v hv
    rw [e2, List.mem_range'_1] at hv
    unfold fenceInitialValue
    omega
  have hpw : List.Pairwise (fun a b => a < b) (signals
      (mainWith LargeSize CommandIters TransferIters CopiesPerBatch
        BandwidthBatches env).1.trace) := by
    rw [e2]; exact List.pairwise_lt_range' 1 _
  refine ⟨e2, hpw, hall, e1, ?_, ?_⟩
  · rw [e1]; omega
  · intro issued rest hsplit
    rw [← hsplit, signals_append] at hpw hall
    exact ⟨(List.pairwise_append.mp hpw).1, fun v hv => hall v (List.mem_append_left _ hv)⟩

theorem signals_strictly_increase_witness :
    signals (mainWith 1024 2 1 8 2 exampleObs).1.trace = [1, 2, 3, 4, 5, 6, 7, 8] ∧
    (mainWith 1024 2 1 8 2 exampleObs).1.fenceValue = 9 :=
  ⟨(signals_strictly_increase 1024 2 1 8 2 exampleObs (by decide) (by decide) (by decide)).1,
   (signals_strictly_increase 1024 2 1 8 2 exampleObs (by decide) (by decide)
    (by decide)).2.2.2.1⟩

/-- C10. The calls of a whole run (all five procedures, any iteration counts an
`int` can hold) obey the synchronisation discipline `Sync.step`: no reset of the
allocator or the list and no submission while a submitted command list is
outstanding, and no read of the timestamp readback before the batch that
resolved into it has retired. The run ends with nothing outstanding, and after
every initial segment of the calls at most one batch is outstanding. -/
theorem one_batch_in_flight (LargeSize : Nat)
    (CommandIters TransferIters CopiesPerBatch BandwidthBatches : Int) (env : RunObs)
    (h1 : BandwidthBatches ≤ (INT_MAX : Int)) (h2 : CommandIters ≤ (INT_MAX : Int))
    (h3 : TransferIters ≤ (INT_MAX : Int)) :
    (∃ s, Sync.run Sync.init
      (mainWith LargeSize CommandIters TransferIters CopiesPerBatch BandwidthBatches env).1.trace
        = some s ∧ s.inFlight = 0) ∧
    (∀ issued, List.IsPrefix issued
      (mainWith LargeSize CommandIters TransferIters CopiesPerBatch BandwidthBatches env).1.trace →
      ∃ s, Sync.run Sync.init issued = some s ∧ s.inFlight ≤ 1) := by
  obtain ⟨_, _, s, e, a1, _⟩ := mainWith_effect LargeSize CommandIters TransferIters
    CopiesPerBatch BandwidthBatches env h1 h2 h3
  refine ⟨⟨s, e, a1⟩, ?_⟩
  rintro issued ⟨rest, hrest⟩
  rw [← hrest] at e
  exact Sync.run_prefix issued rest Sync.init s e (by decide)

theorem one_batch_in_flight_witness :
    ∃ s, Sync.run Sync.init (mainWith 1024 2 1 8 2 exampleObs).1.trace = some s ∧
      s.inFlight = 0 :=
  (one_batch_in_flight 1024 2 1 8 2 exampleObs (by decide) (by decide) (by decide)).1

/-- C6, counterexample. One batch whose end timestamp (3) is below its start
timestamp (5): `RunBandwidthTest` appends a sample for it, computed from the tick
difference wrapped modulo `2 ^ 64`, and reports it as min, avg and max. A batch with
equal timestamps is appended as well. -/
theorem inverted_batch_is_appended :
    (bandwidthLoop (256 * 1024 * 1024) 8 1 1000
      (fun _ => { completed := 1, ts0 := 5, ts1 := 3 }) initialHost).2
        = [1000 / 9223372036854775807] ∧
    (RunBandwidthTest (256 * 1024 * 1024) 8 1 1000
      (fun _ => { completed := 1, ts0 := 5, ts1 := 3 }) initialHost).2
        = some { min := 1000 / 9223372036854775807, avg := 1000 / 9223372036854775807,
                 max := 1000 / 9223372036854775807 } ∧
    (bandwidthLoop (256 * 1024 * 1024) 8 1 1000
      (fun _ => { completed := 1, ts0 := 5, ts1 := 5 }) initialHost).2.length = 1 := by
  have hs : bandwidthSample (256 * 1024 * 1024) 8 1000 5 3 = 1000 / 9223372036854775807 := by
    unfold bandwidthSample; norm_num
  have hl : (bandwidthLoop (256 * 1024 * 1024) 8 1 1000
      (fun _ => { completed := 1, ts0 := 5, ts1 := 3 }) initialHost).2
        = [1000 / 9223372036854775807] := by
    rw [bandwidthLoop_series]
    simp [hs]
  refine ⟨hl, ?_, ?_⟩
  · simp only [RunBandwidthTest, hl]
    simp [bandwidthResults, min_element, max_element, accumulate]
  · rw [bandwidthLoop_series]; simp

/-- C6, amended. `RunBandwidthTest` appends exactly one sample for every batch,
whatever its timestamps: the series holds `batches` samples, one per batch in order.
For a batch whose end timestamp is below its start timestamp the sample is
computed from the `UINT64` difference, `2 ^ 64 - (ts0 - ts1)` ticks. -/
theorem every_batch_is_appended (bufferSize : Nat) (copiesPerBatch batches : Int)
    (timestampFreq : Nat) (obs : Nat → BandwidthObs) (h : Host) :
    (∀ o st, (bandwidthBatch bufferSize copiesPerBatch timestampFreq o st).2 =
      st.2 ++ [bandwidthSample bufferSize copiesPerBatch timestampFreq o.ts0 o.ts1]) ∧
    (bandwidthLoop bufferSize copiesPerBatch batches timestampFreq obs h).2 =
      (List.range batches.toNat).map (fun i =>
        bandwidthSample bufferSize copiesPerBatch timestampFreq (obs i).ts0 (obs i).ts1) ∧
    (bandwidthLoop bufferSize copiesPerBatch batches timestampFreq obs h).2.length
      = batches.toNat ∧
    (∀ ts0 ts1, ts1 < ts0 → ts0 < 2 ^ 64 →
      bandwidthSample bufferSize copiesPerBatch timestampFreq ts0 ts1 =
        (((bufferSize : ℚ) * (copiesPerBatch : ℚ)) / 1024 ^ 3) /
          (((2 ^ 64 - (ts0 - ts1) : Nat) : ℚ) / (timestampFreq : ℚ))) := by
  refine ⟨fun o st => rfl, bandwidthLoop_series _ _ _ _ _ _, ?_, ?_⟩
  · rw [bandwidthLoop_series]; simp
  · intro ts0 ts1 h01 h0
    unfold bandwidthSample
    have : (ts1 % 2 ^ 64 + 2 ^ 64 - ts0 % 2 ^ 64) % 2 ^ 64 = 2 ^ 64 - (ts0 - ts1) := by omega
    simp only [this]
    norm_num

/-- C7. With zero or negative iterations (batches) the series of each of
`RunBandwidthTest`, `RunLatencyTest` and `RunCommandLatencyTest` is empty and the
results block fails: no report is produced. With an iteration count of at least 1
the series is not empty and a report is produced. -/
theorem reduction_fails_on_empty_series (n : Int) (bufferSize : Nat) (copiesPerBatch : Int)
    (timestampFreq : Nat) (bobs : Nat → BandwidthObs) (period : ℚ) (lobs : Nat → LatencyObs)
    (h : Host) (hn : n ≤ (INT_MAX : Int)) :
    (n ≤ 0 →
      (bandwidthLoop bufferSize copiesPerBatch n timestampFreq bobs h).2 = [] ∧
      (latencyLoop period n lobs h).2 = [] ∧
      (commandLatencyLoop period n lobs h).2 = [] ∧
      (RunBandwidthTest bufferSize copiesPerBatch n timestampFreq bobs h).2 = none ∧
      (RunLatencyTest period n lobs h).2 = none ∧
      (RunCommandLatencyTest period n lobs h).2 = none) ∧
    (1 ≤ n →
      (bandwidthLoop bufferSize copiesPerBatch n timestampFreq bobs h).2 ≠ [] ∧
      (latencyLoop period n lobs h).2 ≠ [] ∧
      (commandLatencyLoop period n lobs h).2 ≠ [] ∧
      (RunBandwidthTest bufferSize copiesPerBatch n timestampFreq bobs h).2.isSome ∧
      (RunLatencyTest period n lobs h).2.isSome ∧
      (RunCommandLatencyTest period n lobs h).2.isSome) := by
  have l1 : (bandwidthLoop bufferSize copiesPerBatch n timestampFreq bobs h).2.length
      = n.toNat := by rw [bandwidthLoop_series]; simp
  have l2 : (latencyLoop period n lobs h).2.length = n.toNat := by
    rw [latencyLoop_series]; simp
  have l3 : (commandLatencyLoop period n lobs h).2.length = n.toNat := by
    rw [commandLatencyLoop_series]; simp
  constructor
  · intro h0
    have hz : n.toNat = 0 := by omega
    rw [hz] at l1 l2 l3
    have e1 := List.length_eq_zero.mp l1
    have e2 := List.length_eq_zero.mp l2
    have e3 := List.length_eq_zero.mp l3
    refine ⟨e1, e2, e3, ?_, ?_, ?_⟩
    · simp only [RunBandwidthTest, e1]; rfl
    · rw [RunLatencyTest_snd, e2]; rfl
    · rw [RunCommandLatencyTest_snd, e3]; rfl
  · intro h1
    have hp : 0 < n.toNat := by omega
    have hb : n.toNat ≤ INT_MAX := by unfold INT_MAX at hn ⊢; omega
    have e1 : (bandwidthLoop bufferSize copiesPerBatch n timestampFreq bobs h).2 ≠ [] := by
      intro e; rw [e] at l1; simp at l1; omega
    have e2 : (latencyLoop period n lobs h).2 ≠ [] := by
      intro e; rw [e] at l2; simp at l2; omega
    have e3 : (commandLatencyLoop period n lobs h).2 ≠ [] := by
      intro e; rw [e] at l3; simp at l3; omega
    refine ⟨e1, e2, e3, ?_, ?_, ?_⟩
    · obtain ⟨r, hr, _⟩ := bandwidthResults_some _ e1
      simp only [RunBandwidthTest, hr, Option.isSome_some]
    · obtain ⟨r, hr, _⟩ := latencyResults_some _ e2 (by rw [l2]; exact hb)
      rw [RunLatencyTest_snd, hr]; rfl
    · obtain ⟨r, hr, _⟩ := latencyResults_some _ e3 (by rw [l3]; exact hb)
      rw [RunCommandLatencyTest_snd, hr]; rfl

theorem reduction_fails_on_empty_series_witness :
    (RunLatencyTest (1 / 1000) 0 exampleObs.test4 initialHost).2 = none ∧
    (RunBandwidthTest 1024 8 0 1000 exampleObs.test1 initialHost).2 = none ∧
    (RunLatencyTest (1 / 1000) 1 exampleObs.test4 initialHost).2.isSome ∧
    (RunBandwidthTest 1024 8 1 1000 exampleObs.test1 initialHost).2.isSome :=
  ⟨((reduction_fails_on_empty_series 0 1024 8 1000 exampleObs.test1 (1 / 1000)
      exampleObs.test4 initialHost (by decide)).1 (by decide)).2.2.2.2.1,
   ((reduction_fails_on_empty_series 0 1024 8 1000 exampleObs.test1 (1 / 1000)
      exampleObs.test4 initialHost (by decide)).1 (by decide)).2.2.2.1,
   ((reduction_fails_on_empty_series 1 1024 8 1000 exampleObs.test1 (1 / 1000)
      exampleObs.test4 initialHost (by decide)).2 (by decide)).2.2.2.2.1,
   ((reduction_fails_on_empty_series 1 1024 8 1000 exampleObs.test1 (1 / 1000)
      exampleObs.test4 initialHost (by decide)).2 (by decide)).2.2.2.1⟩

/-- C9, counterexample. One iteration of `RunLatencyTest`: the start clock read
(`now 100`) is issued right after the two resets, before the copy is recorded and
the list is closed; it is not immediately followed by the submission. -/
theorem transfer_latency_start_precedes_recording :
    (latencyLoop (1 / 1000) 1 (fun _ => { completed := 0, start := 100, stop := 5100 })
      initialHost).1.trace =
      [Op.allocatorReset, Op.listReset, Op.now 100, Op.copyResource, Op.close,
        Op.executeCommandLists, Op.signal 1, Op.getCompletedValue 0,
        Op.setEventOnCompletion 1, Op.waitForSingleObject, Op.now 5100] ∧
    ¬ List.IsInfix [Op.now 100, Op.executeCommandLists]
      (latencyLoop (1 / 1000) 1 (fun _ => { completed := 0, start := 100, stop := 5100 })
        initialHost).1.trace ∧
    List.takeWhile (fun op => decide (op ≠ Op.now 100))
      (latencyLoop (1 / 1000) 1 (fun _ => { completed := 0, start := 100, stop := 5100 })
        initialHost).1.trace = [Op.allocatorReset, Op.listReset] := by
  decide

/-- C9, amended. In every iteration of `RunCommandLatencyTest` the start clock read
comes after the list has been closed and immediately before the submission; in
every iteration of `RunLatencyTest` it comes immediately after the resets, before
the copy is recorded and the list is closed, so that the interval also covers
recording and closing. In both, the end clock read comes immediately after the
calls of `WaitForFence`, and the sample pushed is the difference of the two
reads. -/
theorem latency_clock_bracket (period : ℚ) (o : LatencyObs) (st : Host × List ℚ)
    (iterations : Int) (obs : Nat → LatencyObs) (h : Host) :
    (commandLatencyIteration period o st).1.trace = st.1.trace ++
      ([Op.allocatorReset, Op.listReset, Op.close, Op.now o.start, Op.executeCommandLists] ++
        fenceOps st.1.fenceValue o.completed ++ [Op.now o.stop]) ∧
    (commandLatencyIteration period o st).2 =
      st.2 ++ [latencySample period o.start o.stop] ∧
    (latencyIteration period o st).1.trace = st.1.trace ++
      ([Op.allocatorReset, Op.listReset, Op.now o.start, Op.copyResource, Op.close,
        Op.executeCommandLists] ++ fenceOps st.1.fenceValue o.completed ++ [Op.now o.stop]) ∧
    (latencyIteration period o st).2 = st.2 ++ [latencySample period o.start o.stop] ∧
    (WaitForFence o.completed st.1).trace =
      st.1.trace ++ fenceOps st.1.fenceValue o.completed ∧
    (commandLatencyLoop period iterations obs h).2 = (List.range iterations.toNat).map
      (fun i => latencySample period (obs i).start (obs i).stop) ∧
    (latencyLoop period iterations obs h).2 = (List.range iterations.toNat).map
      (fun i => latencySample period (obs i).start (obs i).stop) := by
  refine ⟨?_, ?_, ?_, ?_, rfl, commandLatencyLoop_series _ _ _ _, latencyLoop_series _ _ _ _⟩
  · rw [commandLatencyIteration_eq]
  · rw [commandLatencyIteration_eq]
  · rw [latencyIteration_eq]
  · rw [latencyIteration_eq]

end GpuPcieTest
